import Mathlib

set_option maxRecDepth 100000

/-!
Verification of the caching layer of the madrid-fines project.

The development embeds `madridFines/cache.py` (class `Cache`) and
`madridFines/cacheUrl.py` (class `CacheUrl`) shallowly:

* the POSIX filesystem the cache lives on is a state value (`FS`):
  a list of directories and a list of files with contents and timestamps;
* `pathlib`'s `/` join operator (which collapses empty segments and
  single dots, and restarts at the root on an absolute right operand)
  is `pathJoin`;
* `hashlib.md5(url.encode("utf-8")).hexdigest()` is `md5hexStr`,
  a full MD5 implementation over `Nat` with explicit `% 2^32`;
* each Python method becomes a function taking and returning the
  filesystem state, returning `Except` for raising code paths.

Timestamps are integers in an abstract clock unit; `time.time()` values
are passed explicitly as `now` arguments.
-/

/-- Decidable equality on `Except`, so concrete runs of the embedded
operations can be checked by `decide`. -/
instance exceptDecEq {ε α : Type} [DecidableEq ε] [DecidableEq α] :
    DecidableEq (Except ε α) := fun a b =>
  match a, b with
  | .ok x, .ok y =>
    if h : x = y then .isTrue (by rw [h])
    else .isFalse (by intro hc; cases hc; exact h rfl)
  | .ok _, .error _ => .isFalse (by intro hc; cases hc)
  | .error _, .ok _ => .isFalse (by intro hc; cases hc)
  | .error e, .error f =>
    if h : e = f then .isTrue (by rw [h])
    else .isFalse (by intro hc; cases hc; exact h rfl)

/-- A filesystem path as a list of components from the root. -/
abbrev FPath := List String

/-- Filesystem timestamps of an inode: creation time (`st_birthtime`)
and last-modification time (`st_mtime`). -/
structure FMeta where
  birth : Int
  mtime : Int
deriving DecidableEq, Repr

/-- A regular file: its text content and its timestamps. -/
structure FSFile where
  content : String
  meta : FMeta
deriving DecidableEq, Repr

/-- A filesystem state: the set of existing directories and the
existing regular files, both keyed by path. -/
structure FS where
  dirs : List (FPath × FMeta)
  files : List (FPath × FSFile)
deriving DecidableEq, Repr

/-- Association-list lookup by path key. -/
def lookupKey {α : Type} (l : List (FPath × α)) (p : FPath) : Option α :=
  match l with
  | [] => none
  | e :: l => if e.1 = p then some e.2 else lookupKey l p

/-- Remove every entry with the given path key. -/
def eraseKey {α : Type} (l : List (FPath × α)) (p : FPath) :
    List (FPath × α) :=
  match l with
  | [] => []
  | e :: l => if e.1 = p then eraseKey l p else e :: eraseKey l p

/-- The universal-newlines translation a text-mode `read()` performs:
`\r\n` and a lone `\r` both become `\n`. -/
def univNewlines : List Char → List Char
  | [] => []
  | [c] => if c = '\r' then ['\n'] else [c]
  | c :: c' :: rest =>
    if c = '\r' then
      if c' = '\n' then '\n' :: univNewlines rest
      else '\n' :: univNewlines (c' :: rest)
    else c :: univNewlines (c' :: rest)

/-- Universal-newlines translation of a whole string. -/
def newlineNorm (s : String) : String :=
  String.mk (univNewlines s.data)

namespace FS

/-- Look up a regular file. -/
def getFile (fs : FS) (p : FPath) : Option FSFile :=
  lookupKey fs.files p

/-- Look up a directory's metadata. -/
def getDir (fs : FS) (p : FPath) : Option FMeta :=
  lookupKey fs.dirs p

/-- `p` exists as a directory. -/
def isDir (fs : FS) (p : FPath) : Bool :=
  (fs.getDir p).isSome

/-- `os.stat`: the timestamps of the inode at `p`, if any. Paths are
compared literally: the model stores no `.` or `..` entries (`pathJoin`
collapses `.`, and theorems quantifying over keys restrict them to
plain file names, which excludes both special entries). -/
def stat (fs : FS) (p : FPath) : Option FMeta :=
  match fs.getFile p with
  | some f => some f.meta
  | none => fs.getDir p

/-- `pathlib.Path.exists()`: something (file or directory) is at `p`
(literal path comparison, as for `stat`). -/
def pexists (fs : FS) (p : FPath) : Bool :=
  (fs.stat p).isSome

/-- OS-level errors surfaced by filesystem calls (`OSError` subclasses). -/
inductive OSErr where
  | fileNotFound
  | isADirectory
  | fileExists
deriving DecidableEq, Repr

/-- `open(p, 'w')` followed by writing `data`: fails if `p` is a
directory or the parent directory does not exist; truncating an
existing file keeps its creation time and updates its modification
time; a new file gets both timestamps from the clock. Text mode
translates `\n` to `os.linesep` on write, which on the POSIX platform
modelled here is `\n` itself, so the stored bytes are `data`
verbatim; the translation happens on `read`. -/
def write (fs : FS) (p : FPath) (data : String) (now : Int) : Except OSErr FS :=
  if fs.isDir p then .error .isADirectory
  else
    match fs.getFile p with
    | some f =>
        .ok { fs with files :=
          (p, ⟨data, ⟨f.meta.birth, now⟩⟩) :: eraseKey fs.files p }
    | none =>
        if fs.isDir p.dropLast then
          .ok { fs with files := (p, ⟨data, ⟨now, now⟩⟩) :: fs.files }
        else .error .fileNotFound

/-- `open(p)` followed by `read()`: the content of the file at `p`,
with the universal-newlines translation text mode applies on reading
(`\r\n` and `\r` become `\n`). -/
def read (fs : FS) (p : FPath) : Except OSErr String :=
  match fs.getFile p with
  | some f => .ok (newlineNorm f.content)
  | none => if fs.isDir p then .error .isADirectory else .error .fileNotFound

/-- `Path.unlink()`: remove the regular file at `p`; a directory or a
missing path is an error. -/
def unlink (fs : FS) (p : FPath) : Except OSErr FS :=
  match fs.getFile p with
  | some _ => .ok { fs with files := eraseKey fs.files p }
  | none => if fs.isDir p then .error .isADirectory else .error .fileNotFound

/-- Create the single directory `p` if absent (a helper for `mkdirp`);
an existing file at `p` is an error. -/
def mkdirOne (fs : FS) (p : FPath) (now : Int) : Except OSErr FS :=
  if (fs.getFile p).isSome then .error .fileExists
  else if fs.isDir p then .ok fs
  else .ok { fs with dirs := (p, ⟨now, now⟩) :: fs.dirs }

/-- Create the directories `pre ++ rest.take 1`, `pre ++ rest.take 2`,
…, in order (the recursion behind `mkdirp`). -/
def mkdirpAux (fs : FS) (pre rest : FPath) (now : Int) : Except OSErr FS :=
  match rest with
  | [] => .ok fs
  | d :: rest' =>
    match fs.mkdirOne (pre ++ [d]) now with
    | .ok fs' => mkdirpAux fs' (pre ++ [d]) rest' now
    | .error e => .error e

/-- `Path.mkdir(parents=True, exist_ok=True)`: create every prefix of
`p` that is missing; fails if some prefix exists as a regular file. -/
def mkdirp (fs : FS) (p : FPath) (now : Int) : Except OSErr FS :=
  mkdirpAux fs [] p now

/-- The entries (files and directories) directly inside directory `d`,
as `Path.iterdir()` lists them. -/
def children (fs : FS) (d : FPath) : List FPath :=
  (fs.files.map (·.1) ++ fs.dirs.map (·.1)).filter (fun p => p.dropLast = d ∧ p ≠ d)

/-- Repeated `unlink` of the listed paths, stopping at (and returning)
the first error together with the state mutated so far. -/
def unlinkAll (fs : FS) (ps : List FPath) : Except OSErr Unit × FS :=
  match ps with
  | [] => (.ok (), fs)
  | p :: rest =>
    match fs.unlink p with
    | .ok fs' => unlinkAll fs' rest
    | .error e => (.error e, fs)

end FS

/-! ### `pathlib` join semantics

`Path(base) / name` parses `name` into components: it splits on `/`,
drops empty components and single dots (pathlib collapses both), and
if `name` is absolute the result ignores `base`. -/

/-- Split a character list on `/`. -/
def splitSlashes : List Char → List (List Char)
  | [] => [[]]
  | c :: rest =>
    if c = '/' then [] :: splitSlashes rest
    else
      match splitSlashes rest with
      | [] => [[c]]
      | g :: gs => (c :: g) :: gs

/-- The path components that `pathlib` keeps from a name: split on
slashes, drop empty segments and single dots. -/
def pathSegs (s : String) : List String :=
  ((splitSlashes s.data).filter (fun cs => cs ≠ [] ∧ cs ≠ ['.'])).map
    (fun cs => String.mk cs)

/-- `Path(base) / name`: the right operand is absolute (starts with
`/`) and replaces the base, or is joined onto it. -/
def pathJoin (base : FPath) (name : String) : FPath :=
  if name.data.head? = some '/' then pathSegs name else base ++ pathSegs name

/-- A key that names a single ordinary directory entry: non-empty,
without `/`, and neither of the special entries `.` (which `pathlib`
collapses away) nor `..` (which the filesystem resolves to the parent
directory). Only such keys denote one literal flat file under the
namespace directory. -/
def isPlainName (k : String) : Prop :=
  k.data ≠ [] ∧ '/' ∉ k.data ∧ k.data ≠ ['.'] ∧ k.data ≠ ['.', '.']

instance (k : String) : Decidable (isPlainName k) :=
  inferInstanceAs (Decidable (_ ∧ _ ∧ _ ∧ _))

/-! ### `madridFines/cache.py` -/

/-- Exceptions a cache operation can raise: the project's `CacheError`
(carrying an optional message) or an `OSError` it lets propagate;
`requestException` stands for `requests.RequestException` (both a failed
request and `raise_for_status` on an error status). -/
inductive PyErr where
  | cacheError (msg : Option String)
  | osError (e : FS.OSErr)
  | requestException
deriving DecidableEq, Repr

/-- The `Cache` object's attributes (`app_name`, `obsolescence`,
`cache_dir`), as stored by `Cache.__init__`. -/
structure Cache where
  app_name : String
  obsolescence : Int
  cache_dir : FPath
deriving DecidableEq, Repr

namespace Cache

/-- `Cache.create_app_dir`: `path.mkdir(parents=True, exist_ok=True)`. -/
def create_app_dir (cache_dir : FPath) (now : Int) (fs : FS) : Except FS.OSErr FS :=
  fs.mkdirp cache_dir now

/-- `Cache.__init__(app_name, obsolescence, cache_dir)`: rejects a
negative obsolescence with `CacheError`, stores the attributes with
`cache_dir = cache_dir / app_name`, and creates the app directory. -/
def init (app_name : String) (obsolescence : Int) (cache_dir : FPath)
    (now : Int) (fs : FS) : Except PyErr (Cache × FS) :=
  if obsolescence < 0 then
    .error (.cacheError (some "La obsolescencia no puede ser negativa"))
  else
    match create_app_dir (pathJoin cache_dir app_name) now fs with
    | .ok fs' =>
        .ok (⟨app_name, obsolescence, pathJoin cache_dir app_name⟩, fs')
    | .error e => .error (.osError e)

/-- `Cache.set`: write `data` to `cache_dir / name`. -/
def set (c : Cache) (name data : String) (now : Int) (fs : FS) :
    Except FS.OSErr FS :=
  fs.write (pathJoin c.cache_dir name) data now

/-- `Cache.exists`: `(cache_dir / name).exists()`. -/
def chk_exists (c : Cache) (name : String) (fs : FS) : Bool :=
  fs.pexists (pathJoin c.cache_dir name)

/-- `Cache.load`: if the path exists, read it; else raise `CacheError`. -/
def load (c : Cache) (name : String) (fs : FS) : Except PyErr String :=
  if fs.pexists (pathJoin c.cache_dir name) then
    (fs.read (pathJoin c.cache_dir name)).mapError .osError
  else .error (.cacheError (some ("No existe el archivo '" ++ name ++ "' en cache.")))

/-- `Cache.how_old`: if the path exists, `(now - created) * 1000` where
`created` is `st_birthtime` when the platform exposes it (`useBirth`)
and `st_mtime` otherwise; else raise `CacheError`. -/
def how_old (c : Cache) (name : String) (useBirth : Bool) (now : Int)
    (fs : FS) : Except PyErr Int :=
  match fs.stat (pathJoin c.cache_dir name) with
  | some m => .ok ((now - (if useBirth then m.birth else m.mtime)) * 1000)
  | none => .error (.cacheError (some ("No existe el archivo '" ++ name ++ "' en cache.")))

/-- `Cache.delete`: if the path exists, unlink it; else raise a bare
`CacheError` (no message). -/
def delete (c : Cache) (name : String) (fs : FS) : Except PyErr FS :=
  if fs.pexists (pathJoin c.cache_dir name) then
    (fs.unlink (pathJoin c.cache_dir name)).mapError .osError
  else .error (.cacheError none)

/-- `Cache.clear`: `for f in cache_dir.iterdir(): f.unlink()`; an
`OSError` from any step propagates, keeping earlier removals. -/
def clear (c : Cache) (fs : FS) : Except PyErr Unit × FS :=
  if fs.isDir c.cache_dir then
    ((fs.unlinkAll (fs.children c.cache_dir)).1.mapError .osError,
     (fs.unlinkAll (fs.children c.cache_dir)).2)
  else (.error (.osError .fileNotFound), fs)

end Cache

/-! ### MD5 (`hashlib.md5(...).hexdigest()`)

The digest is computed over `Nat` with explicit reduction `% 2^32`
(`M32`). Bytes are naturals below 256; words are naturals below `M32`.
-/

/-- `2^32`, the word modulus of MD5. -/
def M32 : Nat := 4294967296

/-- Bitwise complement of a 32-bit word held as a `Nat` below `M32`. -/
def w32not (x : Nat) : Nat := 4294967295 - x

/-- Rotate a 32-bit word left by `s` bits (`0 < s < 32`). -/
def rotl32 (x s : Nat) : Nat := (x * 2 ^ s + x / 2 ^ (32 - s)) % M32

/-- The 64 MD5 round constants `K[i] = floor(2^32 * |sin(i+1)|)`. -/
def md5K : List Nat :=
  [3614090360, 3905402710, 606105819, 3250441966, 4118548399, 1200080426,
   2821735955, 4249261313, 1770035416, 2336552879, 4294925233, 2304563134,
   1804603682, 4254626195, 2792965006, 1236535329, 4129170786, 3225465664,
   643717713, 3921069994, 3593408605, 38016083, 3634488961, 3889429448,
   568446438, 3275163606, 4107603335, 1163531501, 2850285829, 4243563512,
   1735328473, 2368359562, 4294588738, 2272392833, 1839030562, 4259657740,
   2763975236, 1272893353, 4139469664, 3200236656, 681279174, 3936430074,
   3572445317, 76029189, 3654602809, 3873151461, 530742520, 3299628645,
   4096336452, 1126891415, 2878612391, 4237533241, 1700485571, 2399980690,
   4293915773, 2240044497, 1873313359, 4264355552, 2734768916, 1309151649,
   4149444226, 3174756917, 718787259, 3951481745]

/-- The 64 MD5 per-round left-rotation amounts. -/
def md5S : List Nat :=
  [7, 12, 17, 22, 7, 12, 17, 22, 7, 12, 17, 22, 7, 12, 17, 22,
   5, 9, 14, 20, 5, 9, 14, 20, 5, 9, 14, 20, 5, 9, 14, 20,
   4, 11, 16, 23, 4, 11, 16, 23, 4, 11, 16, 23, 4, 11, 16, 23,
   6, 10, 15, 21, 6, 10, 15, 21, 6, 10, 15, 21, 6, 10, 15, 21]

/-- One MD5 round: state `(a, b, c, d)`, message words `M`, round
index `i`. -/
def md5step (M : List Nat) (st : Nat × Nat × Nat × Nat) (i : Nat) :
    Nat × Nat × Nat × Nat :=
  let a := st.1; let b := st.2.1; let c := st.2.2.1; let d := st.2.2.2
  let fg : Nat × Nat :=
    if i < 16 then ((b &&& c) ||| (w32not b &&& d), i)
    else if i < 32 then ((d &&& b) ||| (w32not d &&& c), (5 * i + 1) % 16)
    else if i < 48 then (b ^^^ c ^^^ d, (3 * i + 5) % 16)
    else (c ^^^ (b ||| w32not d), (7 * i) % 16)
  let f := (fg.1 + a + md5K.getD i 0 + M.getD fg.2 0) % M32
  (d, (b + rotl32 f (md5S.getD i 0)) % M32, b, c)

/-- Process one 16-word chunk, updating the running state. -/
def md5chunk (st : Nat × Nat × Nat × Nat) (M : List Nat) :
    Nat × Nat × Nat × Nat :=
  let r := (List.range 64).foldl (md5step M) st
  ((st.1 + r.1) % M32, (st.2.1 + r.2.1) % M32,
   (st.2.2.1 + r.2.2.1) % M32, (st.2.2.2 + r.2.2.2) % M32)

/-- Split a byte list into 64-byte chunks (structural recursion on a
length fuel so the kernel can evaluate it). -/
def chunks64Aux : Nat → List Nat → List (List Nat)
  | 0, _ => []
  | _ + 1, [] => []
  | n + 1, l => l.take 64 :: chunks64Aux n (l.drop 64)

/-- Split a byte list into 64-byte chunks. -/
def chunks64 (l : List Nat) : List (List Nat) :=
  chunks64Aux l.length l

/-- Decode a 64-byte chunk into 16 little-endian 32-bit words. -/
def toWords (ch : List Nat) : List Nat :=
  (List.range 16).map (fun j =>
    ch.getD (4 * j) 0 + 256 * ch.getD (4 * j + 1) 0 +
    65536 * ch.getD (4 * j + 2) 0 + 16777216 * ch.getD (4 * j + 3) 0)

/-- The 8-byte little-endian encoding of the 64-bit bit length. -/
def lenLE8 (n : Nat) : List Nat :=
  (List.range 8).map (fun i => n / 256 ^ i % 256)

/-- MD5 padding: append `0x80`, zeros to 56 mod 64, then the bit
length. -/
def md5pad (ms : List Nat) : List Nat :=
  let L := ms.length
  let pad := (64 + 56 - (L + 1) % 64) % 64
  ms ++ 128 :: List.replicate pad 0 ++ lenLE8 (L * 8)

/-- The 4-byte little-endian encoding of a 32-bit word. -/
def le4 (x : Nat) : List Nat :=
  [x % 256, x / 256 % 256, x / 65536 % 256, x / 16777216 % 256]

/-- The 16 digest bytes of MD5 over a byte list. -/
def md5bytes (ms : List Nat) : List Nat :=
  let st := (chunks64 (md5pad ms)).foldl (fun st ch => md5chunk st (toWords ch))
    (1732584193, 4023233417, 2562383102, 271733878)
  le4 st.1 ++ le4 st.2.1 ++ le4 st.2.2.1 ++ le4 st.2.2.2

/-- The lowercase hexadecimal digit for a value below 16 (as
`hexdigest` renders digest bytes); reduced mod 16 so the function is
total. -/
def hexDigit (n : Nat) : Char :=
  Nat.digitChar (n % 16)

/-- Render a byte list as lowercase hex characters, two per byte. -/
def bytesToHex (bs : List Nat) : List Char :=
  bs.foldr (fun b acc => hexDigit (b / 16) :: hexDigit (b % 16) :: acc) []

/-- The UTF-8 bytes of a Unicode code point. -/
def utf8Bytes (c : Nat) : List Nat :=
  if c < 128 then [c]
  else if c < 2048 then [192 + c / 64, 128 + c % 64]
  else if c < 65536 then [224 + c / 4096, 128 + c / 64 % 64, 128 + c % 64]
  else [240 + c / 262144, 128 + c / 4096 % 64, 128 + c / 64 % 64, 128 + c % 64]

/-- `s.encode("utf-8")` as a byte list. -/
def strBytes (s : String) : List Nat :=
  s.data.foldr (fun c acc => utf8Bytes c.toNat ++ acc) []

/-- `hashlib.md5(s.encode("utf-8")).hexdigest()`. -/
def md5hexStr (s : String) : String :=
  String.mk (bytesToHex (md5bytes (strBytes s)))

/-! ### `madridFines/cacheUrl.py` -/

namespace CacheUrl

/-- `CacheUrl._hash`: the MD5 hex digest of the UTF-8 encoded URL. -/
def hashUrl (url : String) : String := md5hexStr url

/-- A network: mapping a URL to `none` (the request itself raises a
`requests.RequestException`) or to a status code and body text. -/
abbrev Net := String → Option (Nat × String)

/-- `requests.Response.raise_for_status()` raises for 4xx and 5xx. -/
def badStatus (status : Nat) : Bool := 400 ≤ status && status < 600

/-- `CacheUrl.get`: on a cache hit return the stored content; on a miss
perform the GET, raise on failure or error status, store the body and
return it. Returns the result together with the filesystem state (so a
raise after a partial mutation keeps the mutation). -/
def get (c : Cache) (url : String) (net : Net) (now : Int) (fs : FS) :
    Except PyErr String × FS :=
  if Cache.chk_exists c (hashUrl url) fs then
    (Cache.load c (hashUrl url) fs, fs)
  else
    match net url with
    | none => (.error .requestException, fs)
    | some (status, text) =>
      if badStatus status then (.error .requestException, fs)
      else
        match Cache.set c (hashUrl url) text now fs with
        | .ok fs' => (.ok text, fs')
        | .error e => (.error (.osError e), fs)

/-- `CacheUrl.exists`: delegate with the hashed key. -/
def chk_exists (c : Cache) (url : String) (fs : FS) : Bool :=
  Cache.chk_exists c (hashUrl url) fs

/-- `CacheUrl.load`: delegate with the hashed key. -/
def load (c : Cache) (url : String) (fs : FS) : Except PyErr String :=
  Cache.load c (hashUrl url) fs

/-- `CacheUrl.how_old`: delegate with the hashed key. -/
def how_old (c : Cache) (url : String) (useBirth : Bool) (now : Int)
    (fs : FS) : Except PyErr Int :=
  Cache.how_old c (hashUrl url) useBirth now fs

/-- `CacheUrl.delete`: delegate with the hashed key. -/
def delete (c : Cache) (url : String) (fs : FS) : Except PyErr FS :=
  Cache.delete c (hashUrl url) fs

end CacheUrl

/-- Run a sequence of `Cache.set` calls `(key, data, time)`; a call
that raises leaves the filesystem as it was (Python's `set` performs
its single write or raises before mutating). -/
def setMany (c : Cache) (ops : List (String × String × Int)) (fs : FS) : FS :=
  ops.foldl (fun fs op =>
    match Cache.set c op.1 op.2.1 op.2.2 fs with
    | .ok fs' => fs'
    | .error _ => fs) fs

/-! ### Concrete states for evaluating the development -/

/-- The empty filesystem. -/
def fsEmpty : FS := ⟨[], []⟩

/-- The cache object built by `Cache("app", 10, Path("home"))`. -/
def cacheC0 : Cache := ⟨"app", 10, ["home", "app"]⟩

/-- The filesystem after that construction: the namespace directory
`home/app` and its parent exist, no files. -/
def fsA : FS := ⟨[(["home", "app"], ⟨0, 0⟩), (["home"], ⟨0, 0⟩)], []⟩

/-- `fsA` after `set("file.txt", "hello")` at time 1. -/
def fsB : FS :=
  ⟨fsA.dirs, [(["home", "app", "file.txt"], ⟨"hello", ⟨1, 1⟩⟩)]⟩

/-- `fsA` after the body `"body"` of URL `"u"` was cached at time 7. -/
def fsU : FS :=
  ⟨fsA.dirs, [(pathJoin cacheC0.cache_dir (CacheUrl.hashUrl "u"), ⟨"body", ⟨7, 7⟩⟩)]⟩

/-- `fsA` with a subdirectory `sub` inside the namespace directory. -/
def fsD : FS := ⟨(["home", "app", "sub"], ⟨0, 0⟩) :: fsA.dirs, []⟩

/-- A network on which every URL yields status 200 and body `"body"`. -/
def netOk : CacheUrl.Net := fun _ => some (200, "body")

/-- A network on which every request raises. -/
def netDown : CacheUrl.Net := fun _ => none

/-- A network on which every URL yields status 500. -/
def net500 : CacheUrl.Net := fun _ => some (500, "oops")

/-- A network on which every URL yields status 200 and a body holding
a Windows line ending. -/
def netCr : CacheUrl.Net := fun _ => some (200, "a\r\nb")

/-- `fsA` after `set("k", "a\rb")` at time 1: the carriage return is
stored verbatim. -/
def fsCr : FS :=
  ⟨fsA.dirs, [(["home", "app", "k"], ⟨"a\rb", ⟨1, 1⟩⟩)]⟩

/-! ## Lemmas about the filesystem model -/

theorem lookupKey_cons_self {α : Type} (l : List (FPath × α)) (p : FPath)
    (a : α) : lookupKey ((p, a) :: l) p = some a := by
  simp [lookupKey]

theorem lookupKey_cons_ne {α : Type} (l : List (FPath × α)) (p q : FPath)
    (a : α) (h : q ≠ p) : lookupKey ((p, a) :: l) q = lookupKey l q := by
  show (if p = q then some a else lookupKey l q) = lookupKey l q
  rw [if_neg (fun hpq => h hpq.symm)]

theorem lookupKey_eraseKey_self {α : Type} (l : List (FPath × α))
    (p : FPath) : lookupKey (eraseKey l p) p = none := by
  induction l with
  | nil => rfl
  | cons e l ih =>
    by_cases hep : e.1 = p
    · simpa [eraseKey, hep] using ih
    · simpa [eraseKey, lookupKey, hep] using ih

theorem lookupKey_eraseKey_ne {α : Type} (l : List (FPath × α))
    (p q : FPath) (h : q ≠ p) :
    lookupKey (eraseKey l p) q = lookupKey l q := by
  induction l with
  | nil => rfl
  | cons e l ih =>
    have hpq : ¬ (p = q) := fun hpq => h hpq.symm
    by_cases hep : e.1 = p
    · have heq : e.1 ≠ q := fun he => hpq (hep.symm.trans he)
      simp [eraseKey, lookupKey, hep, heq, hpq, h, ih]
    · by_cases heq : e.1 = q
      · simp [eraseKey, lookupKey, hep, heq, hpq, h]
      · simp [eraseKey, lookupKey, hep, heq, hpq, h, ih]

namespace FS

theorem write_ok_spec {fs fs' : FS} {p : FPath} {d : String} {t : Int}
    (h : fs.write p d t = .ok fs') :
    fs'.dirs = fs.dirs ∧ fs.isDir p = false ∧
    (∃ b, fs'.getFile p = some ⟨d, ⟨b, t⟩⟩) ∧
    (∀ q, q ≠ p → fs'.getFile q = fs.getFile q) := by
  unfold write at h
  split at h
  · cases h
  · rename_i hdir
    split at h
    · rename_i f hf
      cases h
      refine ⟨rfl, by simpa using hdir,
        ⟨f.meta.birth, lookupKey_cons_self _ _ _⟩, ?_⟩
      intro q hq
      show lookupKey ((p, _) :: eraseKey fs.files p) q = _
      rw [lookupKey_cons_ne _ _ _ _ hq, lookupKey_eraseKey_ne _ _ _ hq]
      rfl
    · split at h
      · cases h
        refine ⟨rfl, by simpa using hdir, ⟨t, lookupKey_cons_self _ _ _⟩, ?_⟩
        intro q hq
        show lookupKey ((p, _) :: fs.files) q = _
        rw [lookupKey_cons_ne _ _ _ _ hq]
        rfl
      · cases h

theorem unlink_ok_spec {fs fs' : FS} {p : FPath}
    (h : fs.unlink p = .ok fs') :
    fs'.dirs = fs.dirs ∧ fs'.getFile p = none ∧
    (∀ q, q ≠ p → fs'.getFile q = fs.getFile q) := by
  unfold unlink at h
  split at h
  · cases h
    exact ⟨rfl, lookupKey_eraseKey_self _ _,
      fun q hq => lookupKey_eraseKey_ne _ _ _ hq⟩
  · split at h <;> cases h

theorem stat_eq_none_iff {fs : FS} {p : FPath} :
    fs.stat p = none ↔ fs.getFile p = none ∧ fs.getDir p = none := by
  unfold stat
  constructor
  · intro h
    split at h
    · cases h
    · exact ⟨by assumption, h⟩
  · rintro ⟨h1, h2⟩
    rw [h1, h2]

theorem stat_of_getFile {fs : FS} {p : FPath} {f : FSFile}
    (h : fs.getFile p = some f) : fs.stat p = some f.meta := by
  unfold stat
  rw [h]

theorem pexists_true_of_getFile {fs : FS} {p : FPath} {f : FSFile}
    (h : fs.getFile p = some f) : fs.pexists p = true := by
  unfold pexists
  rw [stat_of_getFile h]
  rfl

theorem read_of_getFile {fs : FS} {p : FPath} {f : FSFile}
    (h : fs.getFile p = some f) : fs.read p = .ok (newlineNorm f.content) := by
  unfold read
  rw [h]

end FS

/-! ## Lemmas about the universal-newlines translation -/

theorem univNewlines_no_cr : ∀ cs : List Char, '\r' ∉ univNewlines cs
  | [] => by
    intro h
    cases h
  | [c] => by
    intro h
    by_cases hc : c = '\r'
    · rw [show univNewlines [c] = if c = '\r' then ['\n'] else [c] from rfl,
        if_pos hc] at h
      rcases List.mem_cons.mp h with h | h
      · exact absurd h (by decide)
      · cases h
    · rw [show univNewlines [c] = if c = '\r' then ['\n'] else [c] from rfl,
        if_neg hc] at h
      rcases List.mem_cons.mp h with h | h
      · exact hc h.symm
      · cases h
  | c :: c' :: rest => by
    intro h
    rw [show univNewlines (c :: c' :: rest)
        = (if c = '\r' then
            if c' = '\n' then '\n' :: univNewlines rest
            else '\n' :: univNewlines (c' :: rest)
          else c :: univNewlines (c' :: rest)) from rfl] at h
    by_cases hc : c = '\r'
    · rw [if_pos hc] at h
      by_cases hc' : c' = '\n'
      · rw [if_pos hc'] at h
        rcases List.mem_cons.mp h with h | h
        · exact absurd h (by decide)
        · exact univNewlines_no_cr rest h
      · rw [if_neg hc'] at h
        rcases List.mem_cons.mp h with h | h
        · exact absurd h (by decide)
        · exact univNewlines_no_cr (c' :: rest) h
    · rw [if_neg hc] at h
      rcases List.mem_cons.mp h with h | h
      · exact hc h.symm
      · exact univNewlines_no_cr (c' :: rest) h

theorem univNewlines_id : ∀ cs : List Char, '\r' ∉ cs → univNewlines cs = cs
  | [] => fun _ => rfl
  | [c] => by
    intro h
    have hc : ¬ (c = '\r') :=
      fun he => h (by rw [← he]; exact List.mem_cons_self _ _)
    show (if c = '\r' then ['\n'] else [c]) = [c]
    rw [if_neg hc]
  | c :: c' :: rest => by
    intro h
    have hc : ¬ (c = '\r') :=
      fun he => h (by rw [← he]; exact List.mem_cons_self _ _)
    have h' : '\r' ∉ c' :: rest := fun hm => h (List.mem_cons_of_mem _ hm)
    show (if c = '\r' then
        if c' = '\n' then '\n' :: univNewlines rest
        else '\n' :: univNewlines (c' :: rest)
      else c :: univNewlines (c' :: rest)) = c :: c' :: rest
    rw [if_neg hc, univNewlines_id (c' :: rest) h']

theorem newlineNorm_eq_self {s : String} (h : '\r' ∉ s.data) :
    newlineNorm s = s := by
  unfold newlineNorm
  rw [univNewlines_id s.data h]

theorem newlineNorm_idem (s : String) :
    newlineNorm (newlineNorm s) = newlineNorm s := by
  unfold newlineNorm
  rw [show (String.mk (univNewlines s.data)).data = univNewlines s.data from rfl,
    univNewlines_id _ (univNewlines_no_cr s.data)]

/-! ## Lemmas about path joining and the MD5 digest shape -/

theorem splitSlashes_no_slash (cs : List Char) (h : '/' ∉ cs) :
    splitSlashes cs = [cs] := by
  induction cs with
  | nil => rfl
  | cons c cs ih =>
    have hc : ¬ (c = '/') := fun he => h (he ▸ List.mem_cons_self c cs)
    have hcs : '/' ∉ cs := fun hm => h (List.mem_cons_of_mem c hm)
    simp [splitSlashes, hc, ih hcs]

theorem string_mk_data (s : String) : String.mk s.data = s := rfl

theorem pathSegs_plain (k : String) (h : isPlainName k) : pathSegs k = [k] := by
  obtain ⟨h1, h2, h3, -⟩ := h
  unfold pathSegs
  rw [splitSlashes_no_slash k.data h2]
  simp [List.filter, h1, h3, string_mk_data]

theorem pathJoin_plain (base : FPath) (k : String) (h : isPlainName k) :
    pathJoin base k = base ++ [k] := by
  have hh : ¬ (k.data.head? = some '/') := by
    cases hd : k.data with
    | nil => simp
    | cons c cs =>
      simp only [List.head?, Option.some.injEq]
      intro he
      exact h.2.1 (by rw [hd, he]; exact List.mem_cons_self _ _)
  unfold pathJoin
  rw [if_neg hh, pathSegs_plain k h]

theorem hexDigit_ne_slash_dot (n : Nat) :
    hexDigit n ≠ '/' ∧ hexDigit n ≠ '.' := by
  have h : n % 16 < 16 := Nat.mod_lt _ (by omega)
  unfold hexDigit
  revert h
  generalize n % 16 = m
  intro h
  interval_cases m <;> exact ⟨by decide, by decide⟩

theorem bytesToHex_cons (b : Nat) (bs : List Nat) :
    bytesToHex (b :: bs)
      = hexDigit (b / 16) :: hexDigit (b % 16) :: bytesToHex bs := rfl

theorem bytesToHex_chars {bs : List Nat} {c : Char} (h : c ∈ bytesToHex bs) :
    c ≠ '/' ∧ c ≠ '.' := by
  induction bs with
  | nil => cases h
  | cons b bs ih =>
    rw [bytesToHex_cons] at h
    rcases List.mem_cons.mp h with h1 | h
    · exact h1 ▸ hexDigit_ne_slash_dot _
    · rcases List.mem_cons.mp h with h2 | h
      · exact h2 ▸ hexDigit_ne_slash_dot _
      · exact ih h

theorem md5bytes_ne_nil (ms : List Nat) : md5bytes ms ≠ [] := by
  intro h
  have := congrArg List.length h
  simp [md5bytes, le4] at this

theorem md5hexStr_plain (s : String) : isPlainName (md5hexStr s) := by
  refine ⟨?_, ?_, ?_, ?_⟩
  · show bytesToHex (md5bytes (strBytes s)) ≠ []
    cases hb : md5bytes (strBytes s) with
    | nil => exact absurd hb (md5bytes_ne_nil _)
    | cons b bs => rw [bytesToHex_cons]; simp
  · show '/' ∉ bytesToHex (md5bytes (strBytes s))
    intro hm
    exact (bytesToHex_chars hm).1 rfl
  · show bytesToHex (md5bytes (strBytes s)) ≠ ['.']
    intro he
    have hm : '.' ∈ bytesToHex (md5bytes (strBytes s)) := by
      rw [he]; exact List.mem_cons_self _ _
    exact (bytesToHex_chars hm).2 rfl
  · show bytesToHex (md5bytes (strBytes s)) ≠ ['.', '.']
    intro he
    have hm : '.' ∈ bytesToHex (md5bytes (strBytes s)) := by
      rw [he]; exact List.mem_cons_self _ _
    exact (bytesToHex_chars hm).2 rfl

theorem pathJoin_md5 (base : FPath) (url : String) :
    pathJoin base (md5hexStr url) = base ++ [md5hexStr url] :=
  pathJoin_plain base _ (md5hexStr_plain url)

/-! ## Lemmas about the cache operations -/

namespace Cache

theorem chk_exists_of_getFile {c : Cache} {k : String} {fs : FS} {f : FSFile}
    (h : fs.getFile (pathJoin c.cache_dir k) = some f) :
    Cache.chk_exists c k fs = true :=
  FS.pexists_true_of_getFile h

theorem load_of_getFile {c : Cache} {k : String} {fs : FS} {f : FSFile}
    (h : fs.getFile (pathJoin c.cache_dir k) = some f) :
    Cache.load c k fs = .ok (newlineNorm f.content) := by
  unfold load
  rw [FS.pexists_true_of_getFile h, if_pos rfl, FS.read_of_getFile h]
  rfl

theorem load_ok_inv {c : Cache} {k body : String} {fs : FS}
    (h : Cache.load c k fs = .ok body) :
    ∃ f, fs.getFile (pathJoin c.cache_dir k) = some f
      ∧ body = newlineNorm f.content := by
  cases hgf : fs.getFile (pathJoin c.cache_dir k) with
  | some f =>
    refine ⟨f, rfl, ?_⟩
    rw [Cache.load_of_getFile hgf] at h
    injection h with h
    exact h.symm
  | none =>
    exfalso
    unfold Cache.load FS.read at h
    rw [hgf] at h
    by_cases hpe : fs.pexists (pathJoin c.cache_dir k) = true
    · rw [hpe] at h
      by_cases hd : fs.isDir (pathJoin c.cache_dir k) = true
      · rw [hd] at h
        simp only [if_true] at h
        cases h
      · rw [Bool.eq_false_iff.mpr (fun he => hd he)] at h
        simp only [Bool.false_eq_true, if_false] at h
        cases h
    · rw [Bool.eq_false_iff.mpr (fun he => hpe he)] at h
      simp at h

theorem notfound_of_stat_none {c : Cache} {k : String} {fs : FS}
    (h : fs.stat (pathJoin c.cache_dir k) = none) :
    Cache.chk_exists c k fs = false
      ∧ Cache.load c k fs = .error (.cacheError
          (some ("No existe el archivo '" ++ k ++ "' en cache.")))
      ∧ (∀ ub now, Cache.how_old c k ub now fs = .error (.cacheError
          (some ("No existe el archivo '" ++ k ++ "' en cache."))))
      ∧ Cache.delete c k fs = .error (.cacheError none) := by
  have hpe : fs.pexists (pathJoin c.cache_dir k) = false := by
    unfold FS.pexists
    rw [h]
    rfl
  refine ⟨hpe, ?_, ?_, ?_⟩
  · unfold load
    rw [hpe]
    rfl
  · intro ub now
    unfold how_old
    rw [h]
  · unfold delete
    rw [hpe]
    rfl

end Cache

/-! ## The claims -/

/-- C3 counterexample: `set("k", "a\rb")` stores the carriage return
verbatim, but text-mode `load` applies universal newlines and returns
`"a\nb"`, which differs from the payload — the claim is false at this
input. -/
theorem set_then_load_counterexample :
    Cache.set cacheC0 "k" "a\rb" 1 fsA = .ok fsCr
      ∧ Cache.load cacheC0 "k" fsCr = .ok "a\nb"
      ∧ ("a\nb" : String) ≠ "a\rb" := by
  decide

/-- C3 (amended): after a successful `set(k, d)`, `exists(k)` returns
true and `load(k)` returns the universal-newlines translation of `d`
(text-mode reading turns `\r\n` and `\r` into `\n`) — hence exactly
`d` whenever `d` contains no carriage return. -/
theorem set_then_exists_and_load (c : Cache) (k d : String) (now : Int)
    (fs fs' : FS) (h : Cache.set c k d now fs = .ok fs') :
    Cache.chk_exists c k fs' = true
      ∧ Cache.load c k fs' = .ok (newlineNorm d)
      ∧ ('\r' ∉ d.data → Cache.load c k fs' = .ok d) := by
  obtain ⟨hdirs, hnd, ⟨b, hself⟩, hother⟩ := FS.write_ok_spec h
  refine ⟨Cache.chk_exists_of_getFile hself, Cache.load_of_getFile hself, ?_⟩
  intro hcr
  rw [Cache.load_of_getFile hself]
  show Except.ok (newlineNorm d) = _
  rw [newlineNorm_eq_self hcr]

/-- Witness for C3: `set("file.txt", "hello")` on the freshly
constructed cache, then `exists` and `load` (no carriage return). -/
theorem set_then_exists_and_load_witness :
    Cache.chk_exists cacheC0 "file.txt" fsB = true
      ∧ Cache.load cacheC0 "file.txt" fsB = .ok "hello" :=
  ⟨(set_then_exists_and_load cacheC0 "file.txt" "hello" 1 fsA fsB (by decide)).1,
   (set_then_exists_and_load cacheC0 "file.txt" "hello" 1 fsA fsB
      (by decide)).2.2 (by decide)⟩

/-- C1 counterexample: a miss fetching body `"a\r\nb"` returns that
body, but the second `get` reads the stored file in text mode and
returns the translated `"a\nb"`, not the body the first call returned
— the claim is false at this input. -/
theorem get_idempotent_counterexample :
    (CacheUrl.get cacheC0 "u" netCr 7 fsA).1 = .ok "a\r\nb"
      ∧ (CacheUrl.get cacheC0 "u" netDown 8
            (CacheUrl.get cacheC0 "u" netCr 7 fsA).2).1 = .ok "a\nb"
      ∧ ("a\nb" : String) ≠ "a\r\nb" := by
  decide

/-- C1 (amended): after a first successful `get(url)`, a second
`get(url)` on the resulting state succeeds for any network whatsoever
(in particular one on which every request fails — no HTTP request is
needed), leaves the state unchanged, and returns the universal-newlines
translation of the first call's body — exactly that body whenever it
contains no carriage return. -/
theorem get_idempotent (c : Cache) (url body : String) (net : CacheUrl.Net)
    (now : Int) (fs : FS)
    (h : (CacheUrl.get c url net now fs).1 = .ok body) :
    ∀ (net2 : CacheUrl.Net) (now2 : Int),
      CacheUrl.get c url net2 now2 (CacheUrl.get c url net now fs).2
          = (.ok (newlineNorm body), (CacheUrl.get c url net now fs).2)
        ∧ ('\r' ∉ body.data →
            CacheUrl.get c url net2 now2 (CacheUrl.get c url net now fs).2
              = (.ok body, (CacheUrl.get c url net now fs).2)) := by
  intro net2 now2
  suffices hmain : CacheUrl.get c url net2 now2 (CacheUrl.get c url net now fs).2
      = (.ok (newlineNorm body), (CacheUrl.get c url net now fs).2) by
    refine ⟨hmain, fun hcr => ?_⟩
    rw [hmain, newlineNorm_eq_self hcr]
  by_cases hhit : Cache.chk_exists c (CacheUrl.hashUrl url) fs = true
  · have hg : CacheUrl.get c url net now fs
        = (Cache.load c (CacheUrl.hashUrl url) fs, fs) := by
      unfold CacheUrl.get
      rw [hhit, if_pos rfl]
    rw [hg] at h ⊢
    simp only at h
    obtain ⟨f, hgf, hbody⟩ := Cache.load_ok_inv h
    have hb2 : newlineNorm body = body := by
      rw [hbody, newlineNorm_idem]
    have hg2 : CacheUrl.get c url net2 now2 fs
        = (Cache.load c (CacheUrl.hashUrl url) fs, fs) := by
      unfold CacheUrl.get
      rw [hhit, if_pos rfl]
    show CacheUrl.get c url net2 now2 fs
        = (.ok (newlineNorm body), (Cache.load c (CacheUrl.hashUrl url) fs, fs).2)
    rw [hg2, h, hb2]
  · have hhit' : Cache.chk_exists c (CacheUrl.hashUrl url) fs = false :=
      Bool.eq_false_iff.mpr (fun he => hhit he)
    cases hnet : net url with
    | none =>
      exfalso
      unfold CacheUrl.get at h
      rw [hhit', hnet] at h
      simp at h
    | some r =>
      obtain ⟨st, text⟩ := r
      by_cases hbad : CacheUrl.badStatus st = true
      · exfalso
        unfold CacheUrl.get at h
        rw [hhit', hnet] at h
        simp [hbad] at h
      · have hbad' : CacheUrl.badStatus st = false :=
          Bool.eq_false_iff.mpr (fun he => hbad he)
        cases hset : Cache.set c (CacheUrl.hashUrl url) text now fs with
        | error e =>
          exfalso
          unfold CacheUrl.get at h
          rw [hhit', hnet] at h
          simp [hbad', hset] at h
        | ok fs' =>
          have hg : CacheUrl.get c url net now fs = (.ok text, fs') := by
            unfold CacheUrl.get
            rw [hhit', hnet]
            simp [hbad', hset]
          rw [hg] at h ⊢
          simp only at h
          injection h with h
          subst h
          obtain ⟨hdirs, hnd, ⟨b, hself⟩, hother⟩ := FS.write_ok_spec hset
          have hex : Cache.chk_exists c (CacheUrl.hashUrl url) fs' = true :=
            Cache.chk_exists_of_getFile hself
          have hload : Cache.load c (CacheUrl.hashUrl url) fs'
              = .ok (newlineNorm text) :=
            Cache.load_of_getFile hself
          have hg2 : CacheUrl.get c url net2 now2 fs'
              = (Cache.load c (CacheUrl.hashUrl url) fs', fs') := by
            unfold CacheUrl.get
            rw [hex, if_pos rfl]
          show CacheUrl.get c url net2 now2 fs'
              = (.ok (newlineNorm text), (Except.ok text, fs').2)
          rw [hg2, hload]

/-- Witness for C1: fetch `"body"` (no carriage return) over a working
network, then `get` again with every request failing; the stored body
comes back exactly. -/
theorem get_idempotent_witness :
    CacheUrl.get cacheC0 "u" netDown 8 (CacheUrl.get cacheC0 "u" netOk 7 fsA).2
      = (.ok "body", (CacheUrl.get cacheC0 "u" netOk 7 fsA).2) :=
  (get_idempotent cacheC0 "u" "body" netOk 7 fsA (by rfl) netDown 8).2
    (by decide)

/-- C2: a `get` on an uncached URL whose request fails (or returns an
error status) raises `requests.RequestException` and leaves the
filesystem exactly as it was, so the URL still does not exist in the
cache. -/
theorem get_miss_network_failure (c : Cache) (url : String)
    (net : CacheUrl.Net) (now : Int) (fs : FS)
    (hmiss : CacheUrl.chk_exists c url fs = false)
    (hnet : net url = none
      ∨ ∃ st text, net url = some (st, text) ∧ CacheUrl.badStatus st = true) :
    CacheUrl.get c url net now fs = (.error .requestException, fs)
      ∧ CacheUrl.chk_exists c url (CacheUrl.get c url net now fs).2 = false := by
  have h1 : CacheUrl.get c url net now fs = (.error .requestException, fs) := by
    unfold CacheUrl.get
    rw [show Cache.chk_exists c (CacheUrl.hashUrl url) fs = false from hmiss]
    rcases hnet with hn | ⟨st, text, hn, hb⟩
    · rw [hn]
      rfl
    · rw [hn]
      simp [hb]
  refine ⟨h1, ?_⟩
  rw [h1]
  exact hmiss

/-- Witness for C2: `get` of an uncached URL over a network answering
status 500. -/
theorem get_miss_network_failure_witness :
    CacheUrl.get cacheC0 "u" net500 8 fsA = (.error .requestException, fsA)
      ∧ CacheUrl.chk_exists cacheC0 "u"
          (CacheUrl.get cacheC0 "u" net500 8 fsA).2 = false :=
  get_miss_network_failure cacheC0 "u" net500 8 fsA (by decide)
    (Or.inr ⟨500, "oops", rfl, rfl⟩)

/-- C9: on a cache hit, `get` is a pure read: the filesystem is
returned unchanged (so the stored payload and the entry's age are
untouched) and the network is never consulted (any two networks and
times give the same result). -/
theorem get_hit_pure (c : Cache) (url : String) (net : CacheUrl.Net)
    (now : Int) (fs : FS)
    (hhit : CacheUrl.chk_exists c url fs = true) :
    CacheUrl.get c url net now fs = (CacheUrl.load c url fs, fs)
      ∧ (∀ (net2 : CacheUrl.Net) (now2 : Int),
          CacheUrl.get c url net2 now2 fs = CacheUrl.get c url net now fs)
      ∧ (∀ ub t, CacheUrl.how_old c url ub t (CacheUrl.get c url net now fs).2
          = CacheUrl.how_old c url ub t fs)
      ∧ CacheUrl.load c url (CacheUrl.get c url net now fs).2
          = CacheUrl.load c url fs := by
  have hg : ∀ (n : CacheUrl.Net) (t : Int),
      CacheUrl.get c url n t fs = (CacheUrl.load c url fs, fs) := by
    intro n t
    unfold CacheUrl.get
    rw [show Cache.chk_exists c (CacheUrl.hashUrl url) fs = true from hhit,
      if_pos rfl]
    rfl
  refine ⟨hg net now, fun n2 t2 => (hg n2 t2).trans (hg net now).symm, ?_, ?_⟩
  · intro ub t
    rw [hg net now]
  · rw [hg net now]

/-- Witness for C9: a hit on the state holding the cached body of
`"u"` returns the load result and the unchanged state. -/
theorem get_hit_pure_witness :
    CacheUrl.get cacheC0 "u" netDown 9 fsU = (CacheUrl.load cacheC0 "u" fsU, fsU) :=
  (get_hit_pure cacheC0 "u" netDown 9 fsU (by decide)).1

/-- C10: `set` does not validate keys as plain file names: the key
`"sub/x"` joins to a path inside a non-existent subdirectory, so
`set` raises an `OSError` instead of storing, and the key still does
not exist. -/
theorem set_key_with_separator_raises :
    Cache.set cacheC0 "sub/x" "d" 1 fsA = .error .fileNotFound
      ∧ Cache.chk_exists cacheC0 "sub/x" fsA = false
      ∧ pathJoin cacheC0.cache_dir "sub/x" = ["home", "app", "sub", "x"] := by
  decide

/-- C8: `how_old` on an existing entry returns `(now - created) * 1000`
where `created` is the creation time when the platform exposes it and
the modification time otherwise; the value is non-negative whenever the
recorded time is not in the future. -/
theorem how_old_existing (c : Cache) (k : String) (ub : Bool) (now : Int)
    (fs : FS) (m : FMeta)
    (hstat : fs.stat (pathJoin c.cache_dir k) = some m)
    (hle : (if ub then m.birth else m.mtime) ≤ now) :
    Cache.how_old c k ub now fs
        = .ok ((now - (if ub then m.birth else m.mtime)) * 1000)
      ∧ 0 ≤ (now - (if ub then m.birth else m.mtime)) * 1000 := by
  constructor
  · unfold Cache.how_old
    rw [hstat]
  · have h0 : 0 ≤ now - (if ub then m.birth else m.mtime) := by omega
    positivity

/-- Witness for C8: the entry written at time 1, asked at time 5,
is 4000 milliseconds old. -/
theorem how_old_existing_witness :
    Cache.how_old cacheC0 "file.txt" true 5 fsB = .ok 4000 := by
  have h := (how_old_existing cacheC0 "file.txt" true 5 fsB ⟨1, 1⟩
    (by decide) (by decide)).1
  simpa using h

/-- C5: every URL-cache operation addresses storage at exactly the MD5
hex digest of the UTF-8 encoded URL, used verbatim as the single file
name under the namespace directory; the same URL gives the same key in
every operation, and URLs with different digests use different paths
(`get` in particular touches no other path). -/
theorem url_key_is_md5 (c : Cache) (url : String) (fs : FS) :
    CacheUrl.hashUrl url = md5hexStr url
      ∧ pathJoin c.cache_dir (CacheUrl.hashUrl url) = c.cache_dir ++ [md5hexStr url]
      ∧ CacheUrl.chk_exists c url fs = fs.pexists (c.cache_dir ++ [md5hexStr url])
      ∧ CacheUrl.load c url fs = Cache.load c (md5hexStr url) fs
      ∧ (∀ ub now, CacheUrl.how_old c url ub now fs
          = Cache.how_old c (md5hexStr url) ub now fs)
      ∧ CacheUrl.delete c url fs = Cache.delete c (md5hexStr url) fs
      ∧ (∀ (net : CacheUrl.Net) (now : Int) (q : FPath),
          q ≠ c.cache_dir ++ [md5hexStr url] →
          ((CacheUrl.get c url net now fs).2).getFile q = fs.getFile q)
      ∧ (∀ url2 : String, md5hexStr url ≠ md5hexStr url2 →
          pathJoin c.cache_dir (CacheUrl.hashUrl url)
            ≠ pathJoin c.cache_dir (CacheUrl.hashUrl url2)) := by
  have hpj : pathJoin c.cache_dir (md5hexStr url) = c.cache_dir ++ [md5hexStr url] :=
    pathJoin_md5 _ _
  refine ⟨rfl, hpj, ?_, rfl, fun ub now => rfl, rfl, ?_, ?_⟩
  · show fs.pexists (pathJoin c.cache_dir (md5hexStr url)) = _
    rw [hpj]
  · intro net now q hq
    by_cases hhit : Cache.chk_exists c (CacheUrl.hashUrl url) fs = true
    · unfold CacheUrl.get
      rw [hhit, if_pos rfl]
    · have hhit' : Cache.chk_exists c (CacheUrl.hashUrl url) fs = false :=
        Bool.eq_false_iff.mpr (fun he => hhit he)
      unfold CacheUrl.get
      rw [hhit']
      cases hnet : net url with
      | none => simp
      | some r =>
        obtain ⟨st, text⟩ := r
        by_cases hbad : CacheUrl.badStatus st = true
        · simp [hbad]
        · have hbad' : CacheUrl.badStatus st = false :=
            Bool.eq_false_iff.mpr (fun he => hbad he)
          cases hset : Cache.set c (CacheUrl.hashUrl url) text now fs with
          | error e => simp [hbad', hset]
          | ok fs' =>
            simp only [hbad', hset, Bool.false_eq_true, if_false]
            obtain ⟨_, _, _, hother⟩ := FS.write_ok_spec hset
            exact hother q (by rw [show pathJoin c.cache_dir (CacheUrl.hashUrl url)
              = c.cache_dir ++ [md5hexStr url] from hpj]; exact hq)
  · intro url2 hne heq
    unfold CacheUrl.hashUrl at heq
    rw [pathJoin_md5, pathJoin_md5] at heq
    exact hne (by simpa using heq)

/-- Witness for C5: `get` of `"u"` writes nowhere but the digest path,
and the digests of `"u"` and `"v"` give different storage paths. -/
theorem url_key_is_md5_witness :
    ((CacheUrl.get cacheC0 "u" netOk 7 fsA).2).getFile ["other"]
        = fsA.getFile ["other"]
      ∧ pathJoin cacheC0.cache_dir (CacheUrl.hashUrl "u")
          ≠ pathJoin cacheC0.cache_dir (CacheUrl.hashUrl "v") :=
  ⟨(url_key_is_md5 cacheC0 "u" fsA).2.2.2.2.2.2.1 netOk 7 ["other"] (by decide),
   (url_key_is_md5 cacheC0 "u" fsA).2.2.2.2.2.2.2 "v" (by decide)⟩

/-! ## Directory-creation machinery (for the constructor claims) -/

theorem lookupKey_isSome_of_mem {α : Type} {l : List (FPath × α)} {p : FPath}
    (h : p ∈ l.map (·.1)) : (lookupKey l p).isSome = true := by
  induction l with
  | nil => cases h
  | cons e l ih =>
    rw [List.map_cons, List.mem_cons] at h
    by_cases hep : e.1 = p
    · simp [lookupKey, hep]
    · rcases h with h | h
      · exact absurd h.symm hep
      · simpa [lookupKey, hep] using ih h

theorem mem_of_lookupKey_isSome {α : Type} {l : List (FPath × α)} {p : FPath}
    (h : (lookupKey l p).isSome = true) : p ∈ l.map (·.1) := by
  induction l with
  | nil => cases h
  | cons e l ih =>
    rw [List.map_cons, List.mem_cons]
    by_cases hep : e.1 = p
    · exact Or.inl hep.symm
    · right
      apply ih
      simpa [lookupKey, hep] using h

theorem lookupKey_isSome_cons {α : Type} (l : List (FPath × α)) (p q : FPath)
    (a : α) (h : (lookupKey l q).isSome = true) :
    (lookupKey ((p, a) :: l) q).isSome = true := by
  by_cases hpq : p = q
  · subst hpq
    rw [lookupKey_cons_self]
    rfl
  · rw [lookupKey_cons_ne _ _ _ _ (fun he => hpq he.symm)]
    exact h

theorem mkdirpAux_spec (rest : FPath) :
    ∀ (fs : FS) (pre : FPath) (now : Int),
      (∀ n, 0 < n → fs.getFile (pre ++ rest.take n) = none) →
      ∃ fs', FS.mkdirpAux fs pre rest now = .ok fs'
        ∧ fs'.files = fs.files
        ∧ (∀ n, 0 < n → n ≤ rest.length → fs'.isDir (pre ++ rest.take n) = true)
        ∧ (∀ q, fs.isDir q = true → fs'.isDir q = true)
        ∧ (∀ q, fs.getDir q = none →
            (∀ n, n ≤ rest.length → q ≠ pre ++ rest.take n) →
            fs'.getDir q = none) := by
  induction rest with
  | nil =>
    intro fs pre now hf
    refine ⟨fs, rfl, rfl, ?_, fun q h => h, fun q h _ => h⟩
    intro n hn hle
    rw [List.length_nil] at hle
    omega
  | cons d rest' ih =>
    intro fs pre now hf
    have hfd : fs.getFile (pre ++ [d]) = none := by
      have h1 := hf 1 Nat.one_pos
      simpa using h1
    have hf' : ∀ n, 0 < n → fs.getFile ((pre ++ [d]) ++ rest'.take n) = none := by
      intro n hn
      have h2 := hf (n + 1) (Nat.succ_pos n)
      rw [List.take_succ_cons] at h2
      simpa [List.append_assoc] using h2
    by_cases hdir : fs.isDir (pre ++ [d]) = true
    · have hone : fs.mkdirOne (pre ++ [d]) now = .ok fs := by
        unfold FS.mkdirOne
        rw [hfd]
        simp [hdir]
      obtain ⟨fs', hok, hfiles, hdirs, hmono, hnone⟩ := ih fs (pre ++ [d]) now hf'
      refine ⟨fs', ?_, hfiles, ?_, hmono, ?_⟩
      · show FS.mkdirpAux fs pre (d :: rest') now = .ok fs'
        unfold FS.mkdirpAux
        rw [hone]
        exact hok
      · intro n hn hle
        match n, hn with
        | 1, _ =>
          rw [List.take_succ_cons]
          simpa using hmono _ hdir
        | (k + 2), _ =>
          have hle' : k + 1 ≤ rest'.length := by
            simp only [List.length_cons] at hle
            omega
          have h3 := hdirs (k + 1) (Nat.succ_pos k) hle'
          rw [List.take_succ_cons]
          simpa [List.append_assoc] using h3
      · intro q hq hne
        apply hnone q hq
        intro n hn
        have h4 := hne (n + 1) (by simp only [List.length_cons]; omega)
        rw [List.take_succ_cons] at h4
        simpa [List.append_assoc] using h4
    · have hone : fs.mkdirOne (pre ++ [d]) now
          = .ok ⟨(pre ++ [d], ⟨now, now⟩) :: fs.dirs, fs.files⟩ := by
        unfold FS.mkdirOne
        rw [hfd]
        simp only [Option.isSome_none, Bool.false_eq_true, if_false]
        rw [if_neg (by simpa using hdir)]
      have hf1 : ∀ n, 0 < n →
          (⟨(pre ++ [d], (⟨now, now⟩ : FMeta)) :: fs.dirs, fs.files⟩ : FS).getFile
            ((pre ++ [d]) ++ rest'.take n) = none := hf'
      obtain ⟨fs', hok, hfiles, hdirs, hmono, hnone⟩ :=
        ih ⟨(pre ++ [d], ⟨now, now⟩) :: fs.dirs, fs.files⟩ (pre ++ [d]) now hf1
      have hstep_dir : (⟨(pre ++ [d], (⟨now, now⟩ : FMeta)) :: fs.dirs,
          fs.files⟩ : FS).isDir (pre ++ [d]) = true := by
        show (lookupKey ((pre ++ [d], (⟨now, now⟩ : FMeta)) :: fs.dirs)
          (pre ++ [d])).isSome = true
        rw [lookupKey_cons_self]
        rfl
      refine ⟨fs', ?_, hfiles, ?_, ?_, ?_⟩
      · show FS.mkdirpAux fs pre (d :: rest') now = .ok fs'
        unfold FS.mkdirpAux
        rw [hone]
        exact hok
      · intro n hn hle
        match n, hn with
        | 1, _ =>
          rw [List.take_succ_cons]
          simpa using hmono _ hstep_dir
        | (k + 2), _ =>
          have hle' : k + 1 ≤ rest'.length := by
            simp only [List.length_cons] at hle
            omega
          have h3 := hdirs (k + 1) (Nat.succ_pos k) hle'
          rw [List.take_succ_cons]
          simpa [List.append_assoc] using h3
      · intro q hq
        apply hmono
        exact lookupKey_isSome_cons _ _ _ _ hq
      · intro q hq hne
        have hq1 : q ≠ pre ++ [d] := by
          have h5 := hne 1 (by simp)
          simpa using h5
        apply hnone q
        · show lookupKey ((pre ++ [d], (⟨now, now⟩ : FMeta)) :: fs.dirs) q = none
          rw [lookupKey_cons_ne _ _ _ _ hq1]
          exact hq
        · intro n hn
          have h4 := hne (n + 1) (by simp only [List.length_cons]; omega)
          rw [List.take_succ_cons] at h4
          simpa [List.append_assoc] using h4

theorem mkdirp_ok (fs : FS) (p : FPath) (now : Int)
    (hf : ∀ n, 0 < n → fs.getFile (p.take n) = none) :
    ∃ fs', fs.mkdirp p now = .ok fs'
      ∧ fs'.files = fs.files
      ∧ (∀ n, 0 < n → n ≤ p.length → fs'.isDir (p.take n) = true)
      ∧ (∀ q, fs.isDir q = true → fs'.isDir q = true)
      ∧ (∀ q, fs.getDir q = none → (∀ n, n ≤ p.length → q ≠ p.take n) →
          fs'.getDir q = none) := by
  obtain ⟨fs', hok, hfiles, hdirs, hmono, hnone⟩ :=
    mkdirpAux_spec p fs [] now (by intro n hn; simpa using hf n hn)
  refine ⟨fs', hok, hfiles, ?_, hmono, ?_⟩
  · intro n hn hle
    have h1 := hdirs n hn hle
    simpa using h1
  · intro q hq hne
    apply hnone q hq
    intro n hn
    have h2 := hne n hn
    simpa using h2

/-- C7: constructing a cache with a negative obsolescence always fails
with `CacheError`; with a non-negative obsolescence (and no file in the
way of the directory path) construction succeeds, stores `app_name`,
`obsolescence` and `cache_dir = base / app_name` in the returned object,
creates the namespace directory and every missing parent, succeeding
also when they already exist, and does not touch any file. -/
theorem init_spec (a : String) (o : Int) (base : FPath) (now : Int) (fs : FS) :
    (o < 0 → Cache.init a o base now fs
        = .error (.cacheError (some "La obsolescencia no puede ser negativa")))
      ∧ (0 ≤ o →
          (∀ n, 0 < n → fs.getFile ((pathJoin base a).take n) = none) →
          ∃ fs', Cache.init a o base now fs
              = .ok (⟨a, o, pathJoin base a⟩, fs')
            ∧ (∀ n, 0 < n → n ≤ (pathJoin base a).length →
                fs'.isDir ((pathJoin base a).take n) = true)
            ∧ fs'.files = fs.files) := by
  constructor
  · intro hneg
    unfold Cache.init
    rw [if_pos hneg]
  · intro hpos hf
    obtain ⟨fs', hok, hfiles, hdirs, hmono, hnone⟩ :=
      mkdirp_ok fs (pathJoin base a) now hf
    refine ⟨fs', ?_, hdirs, hfiles⟩
    unfold Cache.init
    rw [if_neg (not_lt.mpr hpos)]
    rw [show Cache.create_app_dir (pathJoin base a) now fs = .ok fs' from hok]

/-- Witness for C7: a negative obsolescence is rejected; obsolescence
10 constructs `home/app` from the empty filesystem. -/
theorem init_spec_witness :
    Cache.init "app" (-1) ["home"] 0 fsEmpty
        = .error (.cacheError (some "La obsolescencia no puede ser negativa"))
      ∧ ∃ fs', Cache.init "app" 10 ["home"] 0 fsEmpty
            = .ok (⟨"app", 10, pathJoin ["home"] "app"⟩, fs')
          ∧ (∀ n, 0 < n → n ≤ (pathJoin ["home"] "app").length →
              fs'.isDir ((pathJoin ["home"] "app").take n) = true)
          ∧ fs'.files = fsEmpty.files :=
  ⟨(init_spec "app" (-1) ["home"] 0 fsEmpty).1 (by decide),
   (init_spec "app" 10 ["home"] 0 fsEmpty).2 (by decide) (fun n hn => rfl)⟩

/-! ## Never-set keys (C4) -/

theorem setMany_cons (c : Cache) (op : String × String × Int)
    (ops : List (String × String × Int)) (fs : FS) :
    setMany c (op :: ops) fs
      = setMany c ops
          (match Cache.set c op.1 op.2.1 op.2.2 fs with
            | .ok fs' => fs'
            | .error _ => fs) := rfl

theorem setMany_stat_none (c : Cache) (k : String)
    (ops : List (String × String × Int))
    (hops : ∀ op ∈ ops, isPlainName op.1 ∧ op.1 ≠ k) :
    ∀ fs : FS, fs.stat (c.cache_dir ++ [k]) = none →
      (setMany c ops fs).stat (c.cache_dir ++ [k]) = none := by
  induction ops with
  | nil => exact fun fs h => h
  | cons op ops ih =>
    intro fs h
    rw [setMany_cons]
    have hop := hops op (List.mem_cons_self _ _)
    apply ih (fun op' h' => hops op' (List.mem_cons_of_mem _ h'))
    cases hset : Cache.set c op.1 op.2.1 op.2.2 fs with
    | error e =>
      simpa [hset] using h
    | ok fs' =>
      simp only [hset]
      obtain ⟨hdirs, _, _, hother⟩ := FS.write_ok_spec hset
      rw [FS.stat_eq_none_iff] at h ⊢
      constructor
      · rw [hother _ ?_]
        · exact h.1
        · rw [pathJoin_plain _ _ hop.1]
          intro he
          exact hop.2 (by
            have h2 : [op.1] = [k] := List.append_cancel_left he.symm
            injection h2)
      · show lookupKey fs'.dirs _ = none
        rw [hdirs]
        exact h.2

/-- C4 counterexample: in the freshly constructed cache, where no key
was ever set (the filesystem holds no files at all), the key `"."` —
which `pathlib` collapses, so it joins to the namespace directory
itself — has `exists` true, `how_old` silently succeeding, and `delete`
failing with an `OSError` instead of the `CacheError` NotFound. -/
theorem never_set_key_dot_counterexample :
    fsA.files = []
      ∧ Cache.chk_exists cacheC0 "." fsA = true
      ∧ Cache.how_old cacheC0 "." true 5 fsA = .ok 5000
      ∧ Cache.delete cacheC0 "." fsA = .error (.osError .isADirectory) := by
  decide

/-- C4 (amended): for every key that is a plain file name — non-empty,
no `/`, and neither of the special entries `.` (collapsed by `pathlib`)
and `..` (resolved by the filesystem to the parent, so it also exists
without ever being set) — in a cache constructed from an empty
filesystem and then subjected to any sequence of `set` calls with
plain-name keys other than it, `exists` returns false and `load`,
`how_old`, `delete` each raise the `CacheError` NotFound. -/
theorem never_set_plain_key_not_found
    (a k : String) (o t0 : Int) (base : FPath) (c : Cache) (fs1 : FS)
    (ops : List (String × String × Int))
    (hinit : Cache.init a o base t0 fsEmpty = .ok (c, fs1))
    (hk : isPlainName k)
    (hops : ∀ op ∈ ops, isPlainName op.1 ∧ op.1 ≠ k) :
    Cache.chk_exists c k (setMany c ops fs1) = false
      ∧ Cache.load c k (setMany c ops fs1)
          = .error (.cacheError
              (some ("No existe el archivo '" ++ k ++ "' en cache.")))
      ∧ (∀ ub now, Cache.how_old c k ub now (setMany c ops fs1)
          = .error (.cacheError
              (some ("No existe el archivo '" ++ k ++ "' en cache."))))
      ∧ Cache.delete c k (setMany c ops fs1) = .error (.cacheError none) := by
  -- unpack the construction
  obtain ⟨fs'', hok, hfiles, hdirs, hmono, hnone⟩ :=
    mkdirp_ok fsEmpty (pathJoin base a) t0 (fun n hn => rfl)
  unfold Cache.init at hinit
  rw [if_neg (by intro hneg; rw [if_pos hneg] at hinit; cases hinit)] at hinit
  rw [show Cache.create_app_dir (pathJoin base a) t0 fsEmpty = .ok fs''
    from hok] at hinit
  have hc : c = ⟨a, o, pathJoin base a⟩ := by
    cases hinit
    rfl
  have hfs1 : fs1 = fs'' := by
    cases hinit
    rfl
  subst hfs1
  -- the target path never exists
  have hstat : fs1.stat (c.cache_dir ++ [k]) = none := by
    rw [FS.stat_eq_none_iff]
    constructor
    · show lookupKey fs1.files _ = none
      rw [hfiles]
      rfl
    · apply hnone
      · rfl
      · intro n hn he
        have hlen := congrArg List.length he
        rw [List.length_append, List.length_take, hc] at hlen
        simp at hlen
        omega
  have hstat2 := setMany_stat_none c k ops hops fs1 hstat
  have hres := Cache.notfound_of_stat_none
    (by rw [pathJoin_plain _ _ hk]; exact hstat2)
  exact hres

/-- Witness for the amended C4: after constructing the cache and
setting `"x"`, the never-set plain key `"y"` does not exist. -/
theorem never_set_plain_key_not_found_witness :
    Cache.chk_exists cacheC0 "y" (setMany cacheC0 [("x", "v", 1)] fsA) = false
      ∧ Cache.delete cacheC0 "y" (setMany cacheC0 [("x", "v", 1)] fsA)
          = .error (.cacheError none) :=
  ⟨(never_set_plain_key_not_found "app" "y" 10 0 ["home"] cacheC0 fsA
      [("x", "v", 1)] (by decide) (by decide) (by decide)).1,
   (never_set_plain_key_not_found "app" "y" 10 0 ["home"] cacheC0 fsA
      [("x", "v", 1)] (by decide) (by decide) (by decide)).2.2.2⟩

/-! ## `clear` (C6) -/

theorem unlinkAll_ok (ps : List FPath) :
    ∀ fs : FS,
      (∀ p ∈ ps, (fs.getFile p).isSome = true) → ps.Nodup →
      (fs.unlinkAll ps).1 = .ok ()
        ∧ (fs.unlinkAll ps).2.dirs = fs.dirs
        ∧ (∀ q, (fs.unlinkAll ps).2.getFile q
            = if q ∈ ps then none else fs.getFile q) := by
  induction ps with
  | nil =>
    intro fs _ _
    refine ⟨rfl, rfl, ?_⟩
    intro q
    rw [if_neg (List.not_mem_nil q)]
    rfl
  | cons p ps ih =>
    intro fs hex hnd
    have hp := hex p (List.mem_cons_self _ _)
    obtain ⟨f, hf⟩ := Option.isSome_iff_exists.mp hp
    have hu : fs.unlink p = .ok ⟨fs.dirs, eraseKey fs.files p⟩ := by
      unfold FS.unlink
      rw [hf]
    have hrec : fs.unlinkAll (p :: ps)
        = FS.unlinkAll ⟨fs.dirs, eraseKey fs.files p⟩ ps := by
      show (match fs.unlink p with
        | .ok fs' => FS.unlinkAll fs' ps
        | .error e => (.error e, fs)) = _
      rw [hu]
    have hnp : p ∉ ps := (List.nodup_cons.mp hnd).1
    have hstep : ∀ q, (⟨fs.dirs, eraseKey fs.files p⟩ : FS).getFile q
        = if q = p then none else fs.getFile q := by
      intro q
      by_cases hq : q = p
      · subst hq
        rw [if_pos rfl]
        exact lookupKey_eraseKey_self _ _
      · rw [if_neg hq]
        exact lookupKey_eraseKey_ne _ _ _ hq
    obtain ⟨hok, hdirs, hfile⟩ := ih ⟨fs.dirs, eraseKey fs.files p⟩
      (by
        intro r hr
        rw [hstep r, if_neg (fun (he : r = p) => hnp (he ▸ hr))]
        exact hex r (List.mem_cons_of_mem _ hr))
      (List.nodup_cons.mp hnd).2
    rw [hrec]
    refine ⟨hok, hdirs, ?_⟩
    intro q
    rw [hfile q, hstep q]
    by_cases hq1 : q ∈ ps
    · rw [if_pos hq1, if_pos (List.mem_cons_of_mem _ hq1)]
    · rw [if_neg hq1]
      by_cases hq2 : q = p
      · rw [if_pos hq2, if_pos (by rw [hq2]; exact List.mem_cons_self _ _)]
      · rw [if_neg hq2, if_neg (by
          rw [List.mem_cons]
          rintro (h | h)
          · exact hq2 h
          · exact hq1 h)]

theorem unlinkAll_error (ps : List FPath) :
    ∀ (fs : FS) (p : FPath), p ∈ ps →
      fs.getFile p = none → fs.isDir p = true →
      ∃ e, (fs.unlinkAll ps).1 = .error e := by
  induction ps with
  | nil =>
    intro fs p hp
    cases hp
  | cons q ps ih =>
    intro fs p hp hf hd
    by_cases hpq : p = q
    · subst hpq
      have hu : fs.unlink p = .error .isADirectory := by
        unfold FS.unlink
        rw [hf, if_pos hd]
      exact ⟨.isADirectory, by unfold FS.unlinkAll; rw [hu]⟩
    · cases hu : fs.unlink q with
      | error e => exact ⟨e, by unfold FS.unlinkAll; rw [hu]⟩
      | ok fs1 =>
        obtain ⟨hdirs, _, hother⟩ := FS.unlink_ok_spec hu
        have hp' : p ∈ ps := by
          rcases List.mem_cons.mp hp with h | h
          · exact absurd h hpq
          · exact h
        obtain ⟨e, he⟩ := ih fs1 p hp'
          (by rw [hother p hpq]; exact hf)
          (by show (lookupKey fs1.dirs p).isSome = true; rw [hdirs]; exact hd)
        exact ⟨e, by unfold FS.unlinkAll; rw [hu]; exact he⟩

theorem children_sound {fs : FS} {d p : FPath} (h : p ∈ fs.children d) :
    (p ∈ fs.files.map (·.1) ∨ p ∈ fs.dirs.map (·.1))
      ∧ p.dropLast = d ∧ p ≠ d := by
  unfold FS.children at h
  rw [List.mem_filter] at h
  refine ⟨List.mem_append.mp h.1, ?_⟩
  have h2 := h.2
  simpa using h2

theorem children_complete {fs : FS} {d p : FPath}
    (hmem : p ∈ fs.files.map (·.1) ∨ p ∈ fs.dirs.map (·.1))
    (hdl : p.dropLast = d) (hne : p ≠ d) : p ∈ fs.children d := by
  unfold FS.children
  rw [List.mem_filter]
  exact ⟨List.mem_append.mpr hmem, by simp [hdl, hne]⟩

/-- C6: if the namespace directory exists and holds only flat files (no
subdirectories, and globally unique paths), `clear()` succeeds and
removes every file directly under it, so `exists` becomes false for
every plain file-name key — the domain every successfully set flat
entry lives in; the special entries `.` and `..` are excluded, since
they resolve to the namespace directory itself and to its parent,
which both survive `clear`. If the removal of some entry fails (here:
an entry that is a directory, which `unlink` cannot remove), the
`OSError` propagates to the caller instead of being swallowed. -/
theorem clear_spec :
    (∀ (c : Cache) (fs : FS),
        fs.isDir c.cache_dir = true →
        (∀ p ∈ fs.children c.cache_dir, fs.isDir p = false) →
        (fs.files.map (·.1) ++ fs.dirs.map (·.1)).Nodup →
        (Cache.clear c fs).1 = .ok ()
          ∧ (∀ p, p.dropLast = c.cache_dir → p ≠ c.cache_dir →
              (Cache.clear c fs).2.getFile p = none)
          ∧ (∀ k, isPlainName k →
              Cache.chk_exists c k (Cache.clear c fs).2 = false))
      ∧ (∀ (c : Cache) (fs : FS) (p : FPath),
          fs.isDir c.cache_dir = true →
          p ∈ fs.children c.cache_dir →
          fs.getFile p = none → fs.isDir p = true →
          ∃ e, (Cache.clear c fs).1 = .error (.osError e)) := by
  constructor
  · intro c fs hdir hflat hnd
    have hex : ∀ p ∈ fs.children c.cache_dir, (fs.getFile p).isSome = true := by
      intro p hp
      rcases (children_sound hp).1 with hmf | hmd
      · exact lookupKey_isSome_of_mem hmf
      · exfalso
        have hid : fs.isDir p = true := lookupKey_isSome_of_mem hmd
        rw [hflat p hp] at hid
        cases hid
    have hndc : (fs.children c.cache_dir).Nodup := hnd.filter _
    obtain ⟨hok, hdirs, hfile⟩ :=
      unlinkAll_ok (fs.children c.cache_dir) fs hex hndc
    have hclear : Cache.clear c fs
        = ((fs.unlinkAll (fs.children c.cache_dir)).1.mapError .osError,
           (fs.unlinkAll (fs.children c.cache_dir)).2) := by
      unfold Cache.clear
      rw [hdir, if_pos rfl]
    have hgone : ∀ p, p.dropLast = c.cache_dir → p ≠ c.cache_dir →
        (fs.unlinkAll (fs.children c.cache_dir)).2.getFile p = none := by
      intro p hdl hne
      rw [hfile p]
      by_cases hp : p ∈ fs.children c.cache_dir
      · rw [if_pos hp]
      · rw [if_neg hp]
        cases hgf : fs.getFile p with
        | none => rfl
        | some f =>
          exact absurd (children_complete
            (Or.inl (mem_of_lookupKey_isSome (by rw [show fs.getFile p
              = lookupKey fs.files p from rfl] at hgf; rw [hgf]; rfl)))
            hdl hne) hp
    refine ⟨?_, ?_, ?_⟩
    · rw [hclear]
      simp only
      rw [hok]
      rfl
    · intro p hdl hne
      rw [hclear]
      exact hgone p hdl hne
    · intro k hk
      rw [hclear]
      show (fs.unlinkAll (fs.children c.cache_dir)).2.pexists
        (pathJoin c.cache_dir k) = false
      rw [pathJoin_plain _ _ hk]
      have hdl : (c.cache_dir ++ [k]).dropLast = c.cache_dir := by
        simp
      have hne : c.cache_dir ++ [k] ≠ c.cache_dir := by
        intro he
        have := congrArg List.length he
        simp at this
      have hstat : (fs.unlinkAll (fs.children c.cache_dir)).2.stat
          (c.cache_dir ++ [k]) = none := by
        rw [FS.stat_eq_none_iff]
        refine ⟨hgone _ hdl hne, ?_⟩
        show lookupKey (fs.unlinkAll (fs.children c.cache_dir)).2.dirs _ = none
        rw [hdirs]
        cases hgd : lookupKey fs.dirs (c.cache_dir ++ [k]) with
        | none => rfl
        | some m =>
          exfalso
          have hmem : c.cache_dir ++ [k] ∈ fs.dirs.map (·.1) :=
            mem_of_lookupKey_isSome (by rw [hgd]; rfl)
          have hchild := children_complete (Or.inr hmem) hdl hne
          have hid : fs.isDir (c.cache_dir ++ [k]) = true := by
            show (lookupKey fs.dirs _).isSome = true
            rw [hgd]
            rfl
          rw [hflat _ hchild] at hid
          cases hid
      unfold FS.pexists
      rw [hstat]
      rfl
  · intro c fs p hdir hp hf hd
    obtain ⟨e, he⟩ := unlinkAll_error (fs.children c.cache_dir) fs p hp hf hd
    refine ⟨e, ?_⟩
    unfold Cache.clear
    rw [hdir, if_pos rfl]
    simp only
    rw [he]
    rfl

/-- Witness for C6: clearing the namespace holding `file.txt` removes
it, and clearing a namespace containing a subdirectory propagates the
`OSError`. -/
theorem clear_spec_witness :
    Cache.chk_exists cacheC0 "file.txt" (Cache.clear cacheC0 fsB).2 = false
      ∧ ∃ e, (Cache.clear cacheC0 fsD).1 = .error (.osError e) :=
  ⟨(clear_spec.1 cacheC0 fsB (by decide) (by decide) (by decide)).2.2
      "file.txt" (by decide),
   clear_spec.2 cacheC0 fsD ["home", "app", "sub"] (by decide) (by decide)
      (by decide) (by decide)⟩
